import Mathlib

/-!
Verification development for the FrontmatterManager repository
(frontmatter-array.js, frontmatter-editor.js).

The metadata value universe follows the data model of the design document,
which matches what the external frontmatter codec delivers: scalar values
(string, number, boolean, null), ordered sequences of scalars, and nested
mappings that the program treats as opaque and passes through unmodified.
Opaque mappings are modelled by a reference identifier, mirroring JavaScript
object reference semantics (two parsed objects are distinct references even
when structurally equal).

JavaScript numbers are modelled by exact rationals plus the special values
Infinity, -Infinity and NaN.  No claim below depends on floating-point
rounding; numeric literals appearing in claims are exactly representable.
-/

namespace FM

/-- JavaScript number: finite values as exact rationals, plus the three
special values. -/
inductive JNum where
  | finite (q : ℚ)
  | posInf
  | negInf
  | nan
deriving DecidableEq, Repr

/-- Scalar frontmatter value (element of a sequence, or a scalar field). -/
inductive JAtom where
  | str (s : String)
  | num (n : JNum)
  | bool (b : Bool)
  | null
deriving DecidableEq, Repr

/-- Frontmatter field value: a scalar, an ordered sequence of scalars, or an
opaque nested mapping identified by reference. -/
inductive JVal where
  | atom (a : JAtom)
  | arr (xs : List JAtom)
  | obj (ref : Nat)
deriving DecidableEq, Repr

/-- A metadata mapping: string keys, unique, insertion order preserved.
JavaScript object property order for string keys is insertion order, which an
association list models directly. -/
abbrev Meta := List (String × JVal)

/-- Property read, data[k]: the value at the first (unique) matching key,
or none for undefined. -/
def getF (m : Meta) (k : String) : Option JVal :=
  (m.find? (fun p => p.1 == k)).map (fun p => p.2)

/-- Property write, data[k] = v: update in place if the key exists (keeping
its position), otherwise append at the end, as JavaScript assignment does. -/
def setF : Meta → String → JVal → Meta
  | [], k, v => [(k, v)]
  | (k', v') :: rest, k, v =>
      if k' == k then (k, v) :: rest else (k', v') :: setF rest k v

/-- Property delete, delete data[k]. -/
def delF (m : Meta) (k : String) : Meta :=
  m.filter (fun p => !(p.1 == k))

/-- data.hasOwnProperty(k). -/
def hasF (m : Meta) (k : String) : Bool :=
  (m.find? (fun p => p.1 == k)).isSome

/-- JavaScript truthiness of a scalar: empty string, 0, NaN, false and null
are falsy. -/
def jsTruthyAtom : JAtom → Bool
  | .str s => !(s == "")
  | .num (.finite q) => !(q == 0)
  | .num .nan => false
  | .num _ => true
  | .bool b => b
  | .null => false

/-- JavaScript truthiness of a field value: arrays and objects are always
truthy (including the empty array). -/
def jsTruthy : JVal → Bool
  | .atom a => jsTruthyAtom a
  | .arr _ => true
  | .obj _ => true

/-- Truthiness of a property read: an absent property (undefined) is falsy. -/
def jsTruthyOpt : Option JVal → Bool
  | none => false
  | some v => jsTruthy v

/-- ECMAScript WhiteSpace or LineTerminator code points, as trimmed by
String.prototype.trim. -/
def jsWhitespaceChar (c : Char) : Bool :=
  c == '\t' || c == '\n' || c.toNat == 11 || c.toNat == 12 || c == '\r' ||
  c == ' ' || c.toNat == 0xA0 || c.toNat == 0x1680 ||
  (0x2000 ≤ c.toNat && c.toNat ≤ 0x200A) ||
  c.toNat == 0x2028 || c.toNat == 0x2029 || c.toNat == 0x202F ||
  c.toNat == 0x205F || c.toNat == 0x3000 || c.toNat == 0xFEFF

/-- Strip leading and trailing JavaScript whitespace from a character list. -/
def trimCharList (l : List Char) : List Char :=
  ((l.dropWhile jsWhitespaceChar).reverse.dropWhile jsWhitespaceChar).reverse

/-- String.prototype.trim. -/
def jsTrim (s : String) : String :=
  String.mk (trimCharList s.data)

/-- UTF-16 code units of a character (surrogate pair for code points above
0xFFFF); JavaScript strings compare by code-unit sequences. -/
def utf16Units (c : Char) : List Nat :=
  if c.toNat < 0x10000 then [c.toNat]
  else [0xD800 + (c.toNat - 0x10000) / 0x400, 0xDC00 + (c.toNat - 0x10000) % 0x400]

/-- The UTF-16 code-unit sequence of a string. -/
def strUnits (s : String) : List Nat :=
  (s.data.map utf16Units).flatten

/-- Lexicographic strict order on code-unit sequences, the order used by the
JavaScript < operator on strings and hence by Array.prototype.sort. -/
def unitsLt : List Nat → List Nat → Bool
  | [], [] => false
  | [], _ :: _ => true
  | _ :: _, [] => false
  | a :: as, b :: bs => if a < b then true else if b < a then false else unitsLt as bs

/-- JavaScript number-to-string conversion.  Exact for integers, Infinity and
NaN; for non-integral rationals a plain decimal rendering (integer part, then
up to 20 fraction digits) stands in for double shortest-round-trip formatting.
No claim in this development sorts or joins non-integral numeric values. -/
def jnumFracDigits : Nat → ℚ → List Char
  | 0, _ => []
  | fuel + 1, q =>
      if q == 0 then []
      else
        let q10 := q * 10
        let d := q10.floor.toNat
        (Char.ofNat (48 + d % 10)) :: jnumFracDigits fuel (q10 - q10.floor)

/-- Conversion of a JavaScript number to its string form. -/
def jnumToString : JNum → String
  | .posInf => "Infinity"
  | .negInf => "-Infinity"
  | .nan => "NaN"
  | .finite q =>
      if q.den == 1 then toString q.num
      else
        let sign := if q < 0 then "-" else ""
        let a := |q|
        sign ++ toString a.floor.toNat ++ "." ++ String.mk (jnumFracDigits 20 (a - a.floor))

/-- ToString of a scalar, as used by the default sort comparator. -/
def jsToStringAtom : JAtom → String
  | .str s => s
  | .num n => jnumToString n
  | .bool b => if b then "true" else "false"
  | .null => "null"

/-- Element conversion used by Array.prototype.join: null renders as the
empty string, other scalars by ToString. -/
def joinElemStr : JAtom → String
  | .null => ""
  | a => jsToStringAtom a

/-- Join a list of character lists with a separator (Array.prototype.join). -/
def intercalateList (d : List Char) : List (List Char) → List Char
  | [] => []
  | [x] => x
  | x :: rest => x ++ d ++ intercalateList d rest

/-- Array.prototype.join with a given separator. -/
def jsJoinAtoms (d : String) (xs : List JAtom) : String :=
  String.mk (intercalateList d.data ((xs.map joinElemStr).map String.data))

/-- Comparator of the default Array.prototype.sort: compare the ToString
forms by UTF-16 code units; true when a sorts no later than b. -/
def jsSortLe (a b : JAtom) : Bool :=
  !(unitsLt (strUnits (jsToStringAtom b)) (strUnits (jsToStringAtom a)))

/-- Stable insertion of an element into a sorted list (earlier elements stay
before elements with an equal key). -/
def insertLe (le : JAtom → JAtom → Bool) (x : JAtom) : List JAtom → List JAtom
  | [] => [x]
  | y :: ys => if le x y then x :: y :: ys else y :: insertLe le x ys

/-- Stable sort by a boolean total preorder.  Array.prototype.sort is
required to be stable, so any stable sort computes the same list. -/
def sortLe (le : JAtom → JAtom → Bool) : List JAtom → List JAtom
  | [] => []
  | x :: xs => insertLe le x (sortLe le xs)

/-- Array.prototype.sort with the default comparator. -/
def jsSort (xs : List JAtom) : List JAtom :=
  sortLe jsSortLe xs

/-- SameValueZero equality used by Set membership: value equality on
primitives.  (Sequence and mapping values never occur inside sequences in
this data model, so every Set element here is a primitive.) -/
def setKeyEq (a b : JAtom) : Bool := a == b

/-- Spread of new Set(xs): first occurrence of each value, in order. -/
def jsDedupGo (seen : List JAtom) : List JAtom → List JAtom
  | [] => []
  | x :: rest =>
      if seen.any (fun y => setKeyEq y x) then jsDedupGo seen rest
      else x :: jsDedupGo (seen ++ [x]) rest

/-- Deduplication via new Set, preserving first-occurrence order. -/
def jsDedup (xs : List JAtom) : List JAtom :=
  jsDedupGo [] xs

/-- Locate the leftmost occurrence of a separator in a character list:
some (before, after) with the input equal to before ++ sep ++ after, or none
when the separator does not occur. -/
def breakOnL (d : List Char) : List Char → Option (List Char × List Char)
  | [] => if d == [] then some ([], []) else none
  | c :: cs =>
      if d.isPrefixOf (c :: cs) then some ([], (c :: cs).drop d.length)
      else (breakOnL d cs).map (fun pr => (c :: pr.1, pr.2))

/-- Fueled worker for String.prototype.split with a nonempty separator. -/
def splitFuel (d : List Char) : Nat → List Char → List (List Char)
  | 0, s => [s]
  | fuel + 1, s =>
      match breakOnL d s with
      | none => [s]
      | some (p, r) => p :: splitFuel d fuel r

/-- String.prototype.split on character lists.  An empty separator splits
into single characters, exactly as in JavaScript. -/
def splitList (d s : List Char) : List (List Char) :=
  if d == [] then s.map (fun c => [c])
  else splitFuel d (s.length + 1) s

/-- String.prototype.split at the String level. -/
def jsSplit (s d : String) : List String :=
  (splitList d.data s.data).map String.mk

/-- Whether a separator occurs in a string. -/
def occursIn (d s : String) : Bool :=
  (breakOnL d.data s.data).isSome

/-- Hexadecimal digit test. -/
def isHexDigitCh (c : Char) : Bool :=
  c.isDigit || ('a' ≤ c && c ≤ 'f') || ('A' ≤ c && c ≤ 'F')

/-- Numeric value of a digit character (decimal or hexadecimal). -/
def digitVal (c : Char) : Nat :=
  if c.isDigit then c.toNat - 48
  else if 'a' ≤ c && c ≤ 'f' then c.toNat - 87
  else if 'A' ≤ c && c ≤ 'F' then c.toNat - 55
  else 0

/-- Value of a digit sequence in a given base. -/
def natOfDigits (base : Nat) (ds : List Char) : Nat :=
  ds.foldl (fun acc c => acc * base + digitVal c) 0

/-- Parse the exponent part of a decimal literal: empty, or e/E with an
optional sign and at least one digit, consuming the whole remainder. -/
def parseExpPart : List Char → Option Int
  | [] => some 0
  | c :: r =>
      if c == 'e' || c == 'E' then
        match r with
        | '+' :: ds => if ds ≠ [] && ds.all Char.isDigit then some (natOfDigits 10 ds) else none
        | '-' :: ds => if ds ≠ [] && ds.all Char.isDigit then some (-(natOfDigits 10 ds : Int)) else none
        | ds => if ds ≠ [] && ds.all Char.isDigit then some (natOfDigits 10 ds) else none
      else none

/-- The rational denoted by a decimal literal with the given sign, mantissa
(all digits, integer and fraction parts concatenated) and power-of-ten
exponent.  Built directly with mkRat over integer arithmetic. -/
def decToRat (neg : Bool) (mant : Nat) (exp10 : Int) : ℚ :=
  let m : Int := if neg then -(mant : Int) else (mant : Int)
  if 0 ≤ exp10 then mkRat (m * ((10 : Nat) ^ exp10.toNat : Nat)) 1
  else mkRat m ((10 : Nat) ^ (-exp10).toNat)

/-- Parse an unsigned decimal literal (digits, optional dot and fraction
digits, optional exponent), consuming the whole input. -/
def parseDecTail (neg : Bool) (l : List Char) : Option ℚ :=
  let ip := l.takeWhile Char.isDigit
  let r1 := l.dropWhile Char.isDigit
  let hasDot := r1.head? == some '.'
  let afterDot := if hasDot then r1.tail else r1
  let fp := if hasDot then afterDot.takeWhile Char.isDigit else []
  let r2 := if hasDot then afterDot.dropWhile Char.isDigit else r1
  if ip == [] && fp == [] then none
  else
    match parseExpPart r2 with
    | none => none
    | some e => some (decToRat neg (natOfDigits 10 (ip ++ fp)) (e - fp.length))

/-- Parse an optionally signed decimal literal or Infinity. -/
def parseSignedDec (neg : Bool) (l : List Char) : Option JNum :=
  if l == "Infinity".data then some (if neg then .negInf else .posInf)
  else (parseDecTail neg l).map (fun q => .finite q)

/-- Parse a StrNumericLiteral body: a non-decimal 0x/0o/0b literal (unsigned)
or a signed decimal literal. -/
def parseStrNumCore (l : List Char) : Option JNum :=
  match l with
  | '+' :: r => parseSignedDec false r
  | '-' :: r => parseSignedDec true r
  | '0' :: c :: ds =>
      if c == 'x' || c == 'X' then
        if ds ≠ [] && ds.all isHexDigitCh then some (.finite (natOfDigits 16 ds)) else none
      else if c == 'o' || c == 'O' then
        if ds ≠ [] && ds.all (fun d => '0' ≤ d && d ≤ '7') then some (.finite (natOfDigits 8 ds)) else none
      else if c == 'b' || c == 'B' then
        if ds ≠ [] && ds.all (fun d => d == '0' || d == '1') then some (.finite (natOfDigits 2 ds)) else none
      else parseSignedDec false l
  | _ => parseSignedDec false l

/-- ECMAScript ToNumber on a string: trim, empty becomes 0, otherwise parse a
numeric literal; none stands for NaN.  Number(s) and isNaN(s) read from this. -/
def parseStrNum (s : String) : Option JNum :=
  let l := trimCharList s.data
  if l == [] then some (.finite 0) else parseStrNumCore l

/-- isNaN(s) for a string argument. -/
def jsIsNaN (s : String) : Bool :=
  (parseStrNum s).isNone

/-- Change record pushed onto the per-file change log by processMarkdownFile. -/
inductive Change where
  | convertToArray (field : String) (values : List JAtom)
  | processArray (field : String) (values : List JAtom)
  | convertToString (field : String) (value : String)
  | addField (field : String) (value : String)
  | removeField (field : String)
  | renameField (oldField newField : String)
deriving DecidableEq, Repr

/-- The parsed command-line options of frontmatter-array.js that the per-file
processing reads (walker-only options such as the directory, extensions and
recursion flag are handled by the enumeration layer and are not part of the
per-file computation).  The filename regex is abstracted as a predicate on
basenames, mirroring RegExp.prototype.test. -/
structure ArrayArgs where
  fields : List String := ["aiKeywords"]
  delimiter : String := ","
  dryRun : Bool := false
  mode : String := "to-array"
  addField : Option String := none
  addValue : String := ""
  removeField : Option String := none
  renameField : Option String := none
  newFieldName : Option String := none
  sortArrays : Bool := false
  uniqueValues : Bool := false
  filePat : Option (String → Bool) := none
  outputFormat : String := "yaml"
  frontmatterFields : Option (List String) := none

/-- One field of the to-array mode.  The string case splits on the delimiter,
trims the pieces, drops empty pieces, then optionally deduplicates and sorts.
The existing-array case mirrors the aliasing in the source: without
uniqueValues, processedArray is the very array stored in the metadata, so the
in-place sort also changes the stored value and the subsequent
JSON.stringify comparison compares the sorted array with itself. -/
def toArrayField (a : ArrayArgs) (data : Meta) (f : String) : Meta × List Change :=
  match getF data f with
  | some (JVal.atom (JAtom.str s)) =>
      if s == "" then (data, [])
      else
        let valueArray := ((jsSplit s a.delimiter).map jsTrim).filter (fun v => !(v == ""))
        let atoms := valueArray.map JAtom.str
        let processed := if a.uniqueValues then jsDedup atoms else atoms
        let processed := if a.sortArrays then jsSort processed else processed
        (setF data f (JVal.arr processed), [Change.convertToArray f processed])
  | some (JVal.arr xs) =>
      if a.sortArrays || a.uniqueValues then
        let deduped := if a.uniqueValues then jsDedup xs else xs
        let processed := if a.sortArrays then jsSort deduped else deduped
        let current := if a.uniqueValues then xs else processed
        let mutated := if a.uniqueValues then data else setF data f (JVal.arr processed)
        if !(current == processed) then
          (setF mutated f (JVal.arr processed), [Change.processArray f processed])
        else (mutated, [])
      else (data, [])
  | _ => (data, [])

/-- to-array mode over all requested fields, in order, appending each change
to the single change log. -/
def toArrayMode (a : ArrayArgs) (data : Meta) : Meta × List Change :=
  a.fields.foldl
    (fun acc f =>
      let st := toArrayField a acc.1 f
      (st.1, acc.2 ++ st.2))
    (data, [])

/-- One field of the to-string mode: a field holding an array (arrays are
always truthy) is replaced by the join of its elements; everything else is
left untouched. -/
def toStringField (a : ArrayArgs) (data : Meta) (f : String) : Meta × List Change :=
  match getF data f with
  | some (JVal.arr xs) =>
      let stringValue := jsJoinAtoms a.delimiter xs
      (setF data f (JVal.atom (JAtom.str stringValue)), [Change.convertToString f stringValue])
  | _ => (data, [])

/-- to-string mode over all requested fields, in order. -/
def toStringMode (a : ArrayArgs) (data : Meta) : Meta × List Change :=
  a.fields.foldl
    (fun acc f =>
      let st := toStringField a acc.1 f
      (st.1, acc.2 ++ st.2))
    (data, [])

/-- Add-field step: runs when the addField option is a truthy (nonempty)
string and the property read of that field is falsy; the value is stored as
the literal string supplied on the command line. -/
def addFieldStep (a : ArrayArgs) (data : Meta) : Meta × List Change :=
  match a.addField with
  | some f =>
      if !(f == "") && !(jsTruthyOpt (getF data f)) then
        (setF data f (JVal.atom (JAtom.str a.addValue)), [Change.addField f a.addValue])
      else (data, [])
  | none => (data, [])

/-- Remove-field step: deletes the field when it is an own property. -/
def removeFieldStep (a : ArrayArgs) (data : Meta) : Meta × List Change :=
  match a.removeField with
  | some f =>
      if !(f == "") && hasF data f then
        (delF data f, [Change.removeField f])
      else (data, [])
  | none => (data, [])

/-- Rename-field step: when both names are given and the old name is an own
property, assigns the old value to the new name (overwriting any prior value
there) and deletes the old name. -/
def renameFieldStep (a : ArrayArgs) (data : Meta) : Meta × List Change :=
  match a.renameField, a.newFieldName with
  | some old, some new =>
      if !(old == "") && !(new == "") && hasF data old then
        match getF data old with
        | some v => (delF (setF data new v) old, [Change.renameField old new])
        | none => (data, [])
      else (data, [])
  | _, _ => (data, [])

/-- Outcome of processing one file, carrying what the program reports and the
text written back, if any.  Console rendering is not modelled; the analyzed
and validated constructors carry the facts those modes report. -/
inductive FileOutcome where
  | skippedPattern
  | analyzed (fields : List String)
  | validated (missingFields : List String)
  | processed (changes : List Change) (written : Option String)
  | errorLogged (msg : String)
deriving DecidableEq, Repr

/-- Serialization through the external codec, matter.stringify: body text,
metadata and output format to the new file text.  The codec is a black-box
dependency, so it is a parameter of the embedding. -/
abbrev Stringify := String → Meta → String → String

/-- The switch over the operation mode for the mutating modes: to-array and
to-string transform the metadata; any other mode passes it through (the
switch of the source has no default case). -/
def modeStep (a : ArrayArgs) (data : Meta) : Meta × List Change :=
  if a.mode == "to-array" then toArrayMode a data
  else if a.mode == "to-string" then toStringMode a data
  else (data, [])

/-- The pure part of processMarkdownFile after a successful parse: mode
dispatch, then the field operations in source order (add, remove, rename),
then the conditional serialization.  The dry-run flag only suppresses the
written text; the change log is computed before it is consulted. -/
def processParsed (strf : Stringify) (a : ArrayArgs) (data : Meta) (content : String) : FileOutcome :=
  if a.mode == "analyze" then
    FileOutcome.analyzed (data.map (fun p => p.1))
  else if a.mode == "validate" then
    FileOutcome.validated (a.fields.filter (fun f => !(jsTruthyOpt (getF data f))))
  else
    let s1 := modeStep a data
    let s2 := addFieldStep a s1.1
    let s3 := removeFieldStep a s2.1
    let s4 := renameFieldStep a s3.1
    let changes := s1.2 ++ s2.2 ++ s3.2 ++ s4.2
    if changes == [] then FileOutcome.processed [] none
    else
      let updated := strf content s4.1 a.outputFormat
      FileOutcome.processed changes (if a.dryRun then none else some updated)

/-- Parsing through the external codec, matter(text): metadata and body, or a
parse error (thrown in the source, caught at the per-file boundary). -/
abbrev ParseFn := String → Except String (Meta × String)

/-- The effect of attempting the write-back, fs.writeFileSync: unit or a
thrown I/O error. -/
abbrev WriteFn := String → Except String Unit

/-- Body of processMarkdownFile inside the per-file try block, after the
pattern check: read, parse, transform, and conditional write.  A failure in
read, parse or write becomes a logged error for this file only. -/
def processFileBody (parse : ParseFn) (strf : Stringify) (wr : WriteFn)
    (a : ArrayArgs) (readResult : Except String String) : FileOutcome :=
  match readResult with
  | Except.error e => FileOutcome.errorLogged e
  | Except.ok text =>
      match parse text with
      | Except.error e => FileOutcome.errorLogged e
      | Except.ok (data, content) =>
          match processParsed strf a data content with
          | FileOutcome.processed changes (some out) =>
              match wr out with
              | Except.error e => FileOutcome.errorLogged e
              | Except.ok _ => FileOutcome.processed changes (some out)
          | o => o

/-- processMarkdownFile: pattern check on the basename first (before any
read), then the guarded body. -/
def processMarkdownFile (parse : ParseFn) (strf : Stringify) (wr : WriteFn)
    (a : ArrayArgs) (basename : String) (readResult : Except String String) : FileOutcome :=
  match a.filePat with
  | some p =>
      if !(p basename) then FileOutcome.skippedPattern
      else processFileBody parse strf wr a readResult
  | none => processFileBody parse strf wr a readResult

/-- The batch loop of processDirectory restricted to the files it visits:
each file is processed independently, in order. -/
def processBatch (parse : ParseFn) (strf : Stringify) (wr : WriteFn)
    (a : ArrayArgs) (files : List (String × Except String String)) : List FileOutcome :=
  files.map (fun f => processMarkdownFile parse strf wr a f.1 f.2)

/-- A discovered source file of the Cross-Directory Copier: absolute path,
basename, and path relative to the source root, in enumeration order. -/
structure SourceFile where
  path : String
  name : String
  relativePath : String
deriving DecidableEq, Repr

/-- The lookup of copyFrontmatter/processTargetFiles for one target file:
the first source file, in enumeration order, whose basename equals the
target basename or whose relative path equals the target relative path. -/
def findMatchingSource (sourceFiles : List SourceFile) (item : String)
    (targetRelativePath : String) : Option SourceFile :=
  sourceFiles.find? (fun sf => sf.name == item || sf.relativePath == targetRelativePath)

/-- Field merge of the copier: for each field to update, when the source
metadata defines it, copy its value over the target metadata (overwriting)
and mark the target modified. -/
def copyFields (sourceData : Meta) (fieldsToUpdate : List String) (target : Meta) :
    Meta × Bool :=
  fieldsToUpdate.foldl
    (fun acc f =>
      match getF sourceData f with
      | some v => (setF acc.1 f v, true)
      | none => acc)
    (target, false)

/-- The fields the copier updates: the frontmatter-fields filter when given,
otherwise every key of the source metadata. -/
def copierFields (a : ArrayArgs) (sourceData : Meta) : List String :=
  match a.frontmatterFields with
  | some fs => fs
  | none => sourceData.map (fun p => p.1)

/-- Processing of one matched target file by the copier: merge the selected
fields (all source fields when no filter was given), and when at least one
field was copied, serialize and write back unless in dry-run mode.  Returns
the modified flag and the written text, if any. -/
def processTargetFile (strf : Stringify) (a : ArrayArgs) (sourceData targetData : Meta)
    (targetContent : String) : Bool × Option String :=
  if (copyFields sourceData (copierFields a sourceData) targetData).2 then
    (true,
      if a.dryRun then none
      else
        some (strf targetContent (copyFields sourceData (copierFields a sourceData) targetData).1
          (if a.outputFormat == "json" then "json" else "yaml")))
  else (false, none)

/-- The parsed command-line options of frontmatter-editor.js read by its
update path. -/
structure EditorArgs where
  field : String := ""
  value : String := ""
  format : String := "yaml"
  dryRun : Bool := false

/-- String.prototype.startsWith for a single-character argument: the first
character equals it. -/
def startsWithChar (s : String) (c : Char) : Bool :=
  match s.data with
  | [] => false
  | c' :: _ => c' == c

/-- Coercion of the command-line value string in the set command of the
editor: JSON-looking strings are parsed (kept verbatim when parsing fails),
the exact strings true and false become booleans, non-NaN strings with a
nonempty trim become numbers, and everything else is stored verbatim.
JSON.parse is an external language facility, passed in as a parameter. -/
def coerceValue (jsonParse : String → Option JVal) (v : String) : JVal :=
  if startsWithChar v '[' || startsWithChar v '\x7b' then
    match jsonParse v with
    | some j => j
    | none => JVal.atom (JAtom.str v)
  else if v == "true" || v == "false" then
    JVal.atom (JAtom.bool (v == "true"))
  else if !(jsIsNaN v) && !(jsTrim v == "") then
    match parseStrNum v with
    | some n => JVal.atom (JAtom.num n)
    | none => JVal.atom (JAtom.str v)
  else
    JVal.atom (JAtom.str v)

/-- Outcome of the editor helper updateFile. -/
inductive EditOutcome where
  | updated (written : Option String)
  | skippedNoChange
  | errorLogged (msg : String)
deriving DecidableEq, Repr

/-- The editor helper updateFile: read, parse, apply the update function,
and when it reports a modification, serialize and write back unless in
dry-run mode; any failure is caught at the per-file boundary. -/
def updateFile (parse : ParseFn) (strf : Stringify) (wr : WriteFn) (dryRun : Bool)
    (format : String) (updateFn : Meta → Meta × Bool)
    (readResult : Except String String) : EditOutcome :=
  match readResult with
  | Except.error e => EditOutcome.errorLogged e
  | Except.ok text =>
      match parse text with
      | Except.error e => EditOutcome.errorLogged e
      | Except.ok (data, content) =>
          let res := updateFn data
          if res.2 then
            if dryRun then EditOutcome.updated none
            else
              let out := strf content res.1 format
              match wr out with
              | Except.error e => EditOutcome.errorLogged e
              | Except.ok _ => EditOutcome.updated (some out)
          else EditOutcome.skippedNoChange

/-- The update function of the set command: store the coerced value at the
field; always a modification. -/
def setFieldUpdate (jsonParse : String → Option JVal) (a : EditorArgs) : Meta → Meta × Bool :=
  fun data => (setF data a.field (coerceValue jsonParse a.value), true)

/-- The change log carried by a processed outcome (empty for other
outcomes). -/
def changesOf : FileOutcome → List Change
  | .processed cs _ => cs
  | _ => []

/-- The written text carried by a processed outcome (none for other
outcomes). -/
def writtenOf : FileOutcome → Option String
  | .processed _ w => w
  | _ => none

/-- Erase the written text of an outcome, keeping the rest of the report. -/
def forgetWritten : FileOutcome → FileOutcome
  | .processed cs _ => .processed cs none
  | o => o

/-- Erase the written text of an editor outcome. -/
def forgetEditWritten : EditOutcome → EditOutcome
  | .updated _ => .updated none
  | o => o

/-- The batch loop of the editor commands over a directory: processDirectory
invokes the per-file function (here updateFile, which catches its own
failures) once per visited file, in order. -/
def editorBatch (parse : ParseFn) (strf : Stringify) (wr : WriteFn) (dryRun : Bool)
    (format : String) (updateFn : Meta → Meta × Bool)
    (files : List (Except String String)) : List EditOutcome :=
  files.map (fun rr => updateFile parse strf wr dryRun format updateFn rr)

/-- The read-and-parse result for one matched target of the copier: source
metadata, target metadata and target body, or the error thrown by the first
failing read or parse of that pair of files. -/
abbrev TargetInput := Except String (Meta × Meta × String)

/-- Processing of one matched target inside the copier loop, with the write
effect: unlike processMarkdownFile, nothing here is caught, so the result is
an Except whose error propagates out of the loop. -/
def copyTargetStep (strf : Stringify) (wr : WriteFn) (a : ArrayArgs)
    (t : TargetInput) : Except String (Bool × Option String) :=
  match t with
  | Except.error e => Except.error e
  | Except.ok (sourceData, targetData, targetContent) =>
      match processTargetFile strf a sourceData targetData targetContent with
      | (m, some out) =>
          match wr out with
          | Except.error e => Except.error e
          | Except.ok _ => Except.ok (m, some out)
      | (m, none) => Except.ok (m, none)

/-- The copier loop over the matched target files.  copyFrontmatter wraps
the entire run in one try/catch and processTargetFiles has no per-file
catch, so the first thrown error ends the loop: the results of the targets
processed so far are kept (their writes are already committed), the error is
logged once at run level, and every remaining target is left unprocessed. -/
def processTargetFilesRun (strf : Stringify) (wr : WriteFn) (a : ArrayArgs) :
    List TargetInput → List (Bool × Option String) × Option String
  | [] => ([], none)
  | t :: rest =>
      match copyTargetStep strf wr a t with
      | Except.error e => ([], some e)
      | Except.ok r =>
          ((r :: (processTargetFilesRun strf wr a rest).1),
            (processTargetFilesRun strf wr a rest).2)

/-! Helper lemmas about the mapping operations. -/

theorem getF_setF_self (m : Meta) (k : String) (v : JVal) :
    getF (setF m k v) k = some v := by
  induction m with
  | nil => simp [getF, setF, List.find?]
  | cons p rest ih =>
      by_cases h : p.1 == k
      · simp [getF, setF, h, List.find?]
      · simpa [getF, setF, h, List.find?] using ih

theorem find?_first {α} (p : α → Bool) (pre post : List α) (x : α)
    (hpre : ∀ y ∈ pre, p y = false) (hx : p x = true) :
    (pre ++ x :: post).find? p = some x := by
  induction pre with
  | nil => simp [List.find?, hx]
  | cons a rest ih =>
      have ha : p a = false := hpre a (by simp)
      simp only [List.cons_append, List.find?, ha]
      exact ih (fun y hy => hpre y (by simp [hy]))

/-! Claim C1: add-field. -/

/-- Claim C1, counterexample: a field that is present with the falsy value
given by the empty string is overwritten by add-field, and one change is
recorded, contradicting the claim that a present field is always left
unchanged with zero changes. -/
theorem c1_counterexample :
    hasF [("status", JVal.atom (JAtom.str ""))] "status" = true ∧
    addFieldStep { addField := some "status", addValue := "draft" }
        [("status", JVal.atom (JAtom.str ""))]
      = ([("status", JVal.atom (JAtom.str "draft"))], [Change.addField "status" "draft"]) ∧
    [("status", JVal.atom (JAtom.str "draft"))] ≠ [("status", JVal.atom (JAtom.str ""))] := by
  refine ⟨by decide, by decide, by decide⟩

/-- Claim C1, amended: the add-field operation leaves the field unchanged
and records zero changes exactly when the field is present with a truthy
value; it sets the field (recording one change) when the field is absent or
present with a falsy value such as the empty string, false, 0 or null.  In
particular, metadata already containing status with the truthy value
published is left unchanged. -/
theorem c1_add_field_amended (a : ArrayArgs) (d : Meta) (f : String)
    (hf : a.addField = some f) :
    (jsTruthyOpt (getF d f) = true → addFieldStep a d = (d, [])) ∧
    (f ≠ "" → jsTruthyOpt (getF d f) = false →
      addFieldStep a d
        = (setF d f (JVal.atom (JAtom.str a.addValue)), [Change.addField f a.addValue])) := by
  constructor
  · intro ht
    simp [addFieldStep, hf, ht]
  · intro hne hfalsy
    have : (f == "") = false := by
      simpa [beq_iff_eq] using hne
    simp [addFieldStep, hf, hfalsy, this]

/-- Witness for C1: concrete applications covering both directions. -/
theorem c1_add_field_amended_witness :
    (addFieldStep { addField := some "status", addValue := "draft" }
        [("status", JVal.atom (JAtom.str "published"))]
      = ([("status", JVal.atom (JAtom.str "published"))], [])) ∧
    (addFieldStep { addField := some "status", addValue := "draft" } []
      = ([("status", JVal.atom (JAtom.str "draft"))], [Change.addField "status" "draft"])) := by
  constructor
  · exact (c1_add_field_amended _ _ "status" rfl).1 (by decide)
  · exact (c1_add_field_amended _ _ "status" rfl).2 (by decide) (by decide)

/-! Claim C2: source-file matching in the Cross-Directory Copier. -/

/-- Claim C2, counterexample: when a source file with the same basename but
a different relative path is enumerated before the source file with the
identical relative path, the basename match wins, so relative-path lookup
does not take precedence. -/
theorem c2_counterexample :
    findMatchingSource
        [⟨"source/x/a.md", "a.md", "x/a.md"⟩, ⟨"source/sub/a.md", "a.md", "sub/a.md"⟩]
        "a.md" "sub/a.md"
      = some ⟨"source/x/a.md", "a.md", "x/a.md"⟩ ∧
    ("x/a.md" : String) ≠ "sub/a.md" ∧
    (⟨"source/sub/a.md", "a.md", "sub/a.md"⟩ : SourceFile).relativePath = "sub/a.md" := by
  refine ⟨by decide, by decide, by decide⟩

/-- Claim C2, amended: the source file matched to a target is the first
source file in enumeration order whose basename equals the target basename
or whose relative path equals the target relative path; a relative-path
match is selected only when it precedes every basename match in enumeration
order, not by any precedence of match kind. -/
theorem c2_match_amended (pre post : List SourceFile) (sf : SourceFile) (item rel : String)
    (hpre : ∀ x ∈ pre, (x.name == item || x.relativePath == rel) = false)
    (hsf : (sf.name == item || sf.relativePath == rel) = true) :
    findMatchingSource (pre ++ sf :: post) item rel = some sf := by
  unfold findMatchingSource
  exact find?_first _ pre post sf hpre hsf

/-- Witness for C2: a concrete application of the amended matching law. -/
theorem c2_match_amended_witness :
    findMatchingSource
        [⟨"source/x/b.md", "b.md", "x/b.md"⟩, ⟨"source/sub/a.md", "a.md", "sub/a.md"⟩]
        "a.md" "sub/a.md"
      = some ⟨"source/sub/a.md", "a.md", "sub/a.md"⟩ := by
  exact c2_match_amended [⟨"source/x/b.md", "b.md", "x/b.md"⟩] []
    ⟨"source/sub/a.md", "a.md", "sub/a.md"⟩ "a.md" "sub/a.md"
    (by decide) (by decide)

/-! Claim C6: validate mode. -/

/-- Claim C6, counterexample: a requested field present with the falsy value
false is reported as missing by validate mode, so the missing set is not the
set of absent fields. -/
theorem c6_counterexample :
    hasF [("draft", JVal.atom (JAtom.bool false))] "draft" = true ∧
    processParsed (fun c _ _ => c) { mode := "validate", fields := ["draft"] }
        [("draft", JVal.atom (JAtom.bool false))] "body"
      = FileOutcome.validated ["draft"] := by
  refine ⟨by decide, by decide⟩

/-- Claim C6, amended: in validate mode the metadata is not mutated and the
file is never written (the outcome carries no write), and the reported
missing set is exactly the requested fields whose value in the metadata is
absent or falsy (empty string, false, 0, NaN or null); processing of other
files is unaffected. -/
theorem c6_validate_amended (strf : Stringify) (a : ArrayArgs) (d : Meta) (content : String)
    (h : a.mode = "validate") :
    processParsed strf a d content
      = FileOutcome.validated (a.fields.filter (fun f => !(jsTruthyOpt (getF d f)))) := by
  simp [processParsed, h]

/-- Witness for C6: a concrete validate run. -/
theorem c6_validate_amended_witness :
    processParsed (fun c _ _ => c)
        { mode := "validate", fields := ["title", "draft"] }
        [("draft", JVal.atom (JAtom.bool false)), ("title", JVal.atom (JAtom.str "T"))] "body"
      = FileOutcome.validated ["draft"] := by
  have h := c6_validate_amended (fun c _ _ => c)
    { mode := "validate", fields := ["title", "draft"] }
    [("draft", JVal.atom (JAtom.bool false)), ("title", JVal.atom (JAtom.str "T"))] "body" rfl
  simpa using h

/-! Claim C10: to-array on an empty-string field. -/

/-- Claim C10: in to-array mode a requested field whose current value is the
empty string is left unchanged and produces no change record, because the
mode selects fields by truthiness and the empty string is falsy. -/
theorem c10_empty_string_skipped (a : ArrayArgs) (d : Meta) (f : String)
    (h : getF d f = some (JVal.atom (JAtom.str ""))) :
    toArrayField a d f = (d, []) := by
  simp [toArrayField, h]

/-- Witness for C10: a concrete empty-string field. -/
theorem c10_empty_string_skipped_witness :
    toArrayField { fields := ["tags"] } [("tags", JVal.atom (JAtom.str ""))] "tags"
      = ([("tags", JVal.atom (JAtom.str ""))], []) := by
  exact c10_empty_string_skipped _ _ "tags" (by decide)

/-! Claim C3: to-array on an existing array. -/

/-- Claim C3: evaluation of the code at the failing input.  With sortArrays
set and uniqueValues unset, an unsorted existing array field is sorted in
place through the alias, the change comparison then compares the sorted
array with itself, and the run records zero change records and never writes
the file, although the claim (and the design document) promise one change
record exactly when the resulting sequence differs from the original. -/
theorem c3_sort_only_no_change_record :
    toArrayField { fields := ["tags"], sortArrays := true }
        [("tags", JVal.arr [JAtom.str "b", JAtom.str "a"])] "tags"
      = ([("tags", JVal.arr [JAtom.str "a", JAtom.str "b"])], []) ∧
    processParsed (fun c _ _ => c)
        { fields := ["tags"], sortArrays := true, mode := "to-array" }
        [("tags", JVal.arr [JAtom.str "b", JAtom.str "a"])] "body"
      = FileOutcome.processed [] none ∧
    JVal.arr [JAtom.str "a", JAtom.str "b"] ≠ JVal.arr [JAtom.str "b", JAtom.str "a"] := by
  refine ⟨by decide, by decide, by decide⟩

/-! Claim C9: value coercion in the set command of the editor. -/

/-- Claim C9: the command-line value string of the set command is coerced
before being stored: the exact strings true and false become booleans; a
string that does not look like JSON and is a non-NaN numeric string with a
nonempty trim is stored as the number it denotes; a string starting with an
opening bracket or brace that JSON.parse accepts is stored as the parsed
value, and one that JSON.parse rejects is stored verbatim; every other
string is stored verbatim.  In particular the value 42 is stored as the
number 42, not as a string. -/
theorem c9_set_value_coercion (jsonParse : String → Option JVal) (v : String) :
    coerceValue jsonParse "true" = JVal.atom (JAtom.bool true) ∧
    coerceValue jsonParse "false" = JVal.atom (JAtom.bool false) ∧
    (∀ j, (startsWithChar v '[' || startsWithChar v '\x7b') = true →
      jsonParse v = some j → coerceValue jsonParse v = j) ∧
    ((startsWithChar v '[' || startsWithChar v '\x7b') = true →
      jsonParse v = none → coerceValue jsonParse v = JVal.atom (JAtom.str v)) ∧
    (∀ n, (startsWithChar v '[' || startsWithChar v '\x7b') = false →
      v ≠ "true" → v ≠ "false" → parseStrNum v = some n → jsTrim v ≠ "" →
      coerceValue jsonParse v = JVal.atom (JAtom.num n)) ∧
    ((startsWithChar v '[' || startsWithChar v '\x7b') = false →
      v ≠ "true" → v ≠ "false" → (parseStrNum v = none ∨ jsTrim v = "") →
      coerceValue jsonParse v = JVal.atom (JAtom.str v)) ∧
    coerceValue jsonParse "42" = JVal.atom (JAtom.num (JNum.finite 42)) := by
  refine ⟨rfl, rfl, ?_, ?_, ?_, ?_, rfl⟩
  · intro j hs hj
    simp [coerceValue, hs, hj]
  · intro hs hj
    simp [coerceValue, hs, hj]
  · intro n hs ht hf hn htrim
    have ht' : (v == "true") = false := by simpa [beq_iff_eq] using ht
    have hf' : (v == "false") = false := by simpa [beq_iff_eq] using hf
    have htrim' : (jsTrim v == "") = false := by simpa [beq_iff_eq] using htrim
    simp [coerceValue, hs, ht', hf', jsIsNaN, hn, htrim']
  · intro hs ht hf hor
    have ht' : (v == "true") = false := by simpa [beq_iff_eq] using ht
    have hf' : (v == "false") = false := by simpa [beq_iff_eq] using hf
    rcases hor with hn | htrim
    · simp [coerceValue, hs, ht', hf', jsIsNaN, hn]
    · simp [coerceValue, hs, ht', hf', htrim]

/-- Witness for C9: concrete coercions covering the guarded clauses. -/
theorem c9_set_value_coercion_witness :
    coerceValue (fun _ => none) "3.5" = JVal.atom (JAtom.num (JNum.finite (mkRat 7 2))) ∧
    coerceValue (fun _ => none) "hello" = JVal.atom (JAtom.str "hello") ∧
    coerceValue (fun _ => some (JVal.arr [JAtom.num (JNum.finite 1)])) "[1]"
      = JVal.arr [JAtom.num (JNum.finite 1)] ∧
    coerceValue (fun _ => none) "[1" = JVal.atom (JAtom.str "[1") ∧
    coerceValue (fun _ => none) "42" = JVal.atom (JAtom.num (JNum.finite 42)) := by
  refine ⟨?_, ?_, ?_, ?_, (c9_set_value_coercion (fun _ => none) "x").2.2.2.2.2.2⟩
  · exact (c9_set_value_coercion (fun _ => none) "3.5").2.2.2.2.1 (JNum.finite (mkRat 7 2))
      (by decide) (by decide) (by decide) (by decide) (by decide)
  · exact (c9_set_value_coercion (fun _ => none) "hello").2.2.2.2.2.1
      (by decide) (by decide) (by decide) (Or.inl (by decide))
  · exact (c9_set_value_coercion (fun _ => some (JVal.arr [JAtom.num (JNum.finite 1)])) "[1]").2.2.1
      (JVal.arr [JAtom.num (JNum.finite 1)]) (by decide) rfl
  · exact (c9_set_value_coercion (fun _ => none) "[1").2.2.2.1 (by decide) rfl

/-! Claim C4: dry run never writes; identical change log. -/

theorem modeStep_dryRun_indep (a : ArrayArgs) (b : Bool) (d : Meta) :
    modeStep { a with dryRun := b } d = modeStep a d := rfl

theorem addFieldStep_dryRun_indep (a : ArrayArgs) (b : Bool) (d : Meta) :
    addFieldStep { a with dryRun := b } d = addFieldStep a d := rfl

theorem removeFieldStep_dryRun_indep (a : ArrayArgs) (b : Bool) (d : Meta) :
    removeFieldStep { a with dryRun := b } d = removeFieldStep a d := rfl

theorem renameFieldStep_dryRun_indep (a : ArrayArgs) (b : Bool) (d : Meta) :
    renameFieldStep { a with dryRun := b } d = renameFieldStep a d := rfl

theorem processParsed_dryRun (strf : Stringify) (a : ArrayArgs) (d : Meta) (c : String) :
    processParsed strf { a with dryRun := true } d c
      = forgetWritten (processParsed strf { a with dryRun := false } d c) := by
  unfold processParsed
  simp only [modeStep_dryRun_indep, addFieldStep_dryRun_indep,
    removeFieldStep_dryRun_indep, renameFieldStep_dryRun_indep]
  by_cases h1 : a.mode == "analyze"
  · simp [h1, forgetWritten]
  · by_cases h2 : a.mode == "validate"
    · simp [h1, h2, forgetWritten]
    · simp only [h1, h2, Bool.false_eq_true, if_false]
      split <;> simp [forgetWritten]

theorem processFileBody_dryRun (parse : ParseFn) (strf : Stringify) (wr : WriteFn)
    (a : ArrayArgs) (rr : Except String String) :
    processFileBody parse strf wr { a with dryRun := true } rr
      = forgetWritten (processFileBody parse strf (fun _ => Except.ok ()) { a with dryRun := false } rr) := by
  unfold processFileBody
  cases rr with
  | error e => rfl
  | ok text =>
      cases hp : parse text with
      | error e => simp [hp, forgetWritten]
      | ok pr =>
          obtain ⟨data, content⟩ := pr
          simp only [hp]
          rw [processParsed_dryRun]
          cases hP : processParsed strf { a with dryRun := false } data content with
          | processed cs w =>
              cases w with
              | none => rfl
              | some out => simp [forgetWritten]
          | skippedPattern => rfl
          | analyzed fs => rfl
          | validated fs => rfl
          | errorLogged m => rfl

/-- Claim C4: for every file and every mutating request with the dry-run
flag set, no write occurs (the outcome carries no written text, and the
write effect is never invoked, so the on-disk content is untouched), while
the reported outcome and change log are identical to those of the same
request without dry-run; this holds for the transform pipeline of
processMarkdownFile, for the Cross-Directory Copier target processing, and
for the update path of the editor alike. -/
theorem c4_dry_run_never_writes (parse : ParseFn) (strf : Stringify) (wr : WriteFn)
    (a : ArrayArgs) (basename : String) (rr : Except String String)
    (srcD tgtD : Meta) (tc : String) (fmt : String) (updFn : Meta → Meta × Bool) :
    writtenOf (processMarkdownFile parse strf wr { a with dryRun := true } basename rr) = none ∧
    processMarkdownFile parse strf wr { a with dryRun := true } basename rr
      = forgetWritten
          (processMarkdownFile parse strf (fun _ => Except.ok ()) { a with dryRun := false } basename rr) ∧
    (processTargetFile strf { a with dryRun := true } srcD tgtD tc).2 = none ∧
    (processTargetFile strf { a with dryRun := true } srcD tgtD tc).1
      = (processTargetFile strf { a with dryRun := false } srcD tgtD tc).1 ∧
    updateFile parse strf wr true fmt updFn rr
      = forgetEditWritten (updateFile parse strf (fun _ => Except.ok ()) false fmt updFn rr) := by
  have hmain : processMarkdownFile parse strf wr { a with dryRun := true } basename rr
      = forgetWritten
          (processMarkdownFile parse strf (fun _ => Except.ok ()) { a with dryRun := false } basename rr) := by
    unfold processMarkdownFile
    cases a.filePat with
    | none => exact processFileBody_dryRun parse strf wr a rr
    | some p =>
        by_cases hb : p basename
        · simp only [hb]
          simpa using processFileBody_dryRun parse strf wr a rr
        · simp [hb, forgetWritten]
  have hcf : ∀ b : Bool, copierFields { a with dryRun := b } srcD = copierFields a srcD :=
    fun _ => rfl
  have hcopy : processTargetFile strf { a with dryRun := true } srcD tgtD tc
      = ((processTargetFile strf { a with dryRun := false } srcD tgtD tc).1, none) := by
    by_cases hm : (copyFields srcD (copierFields a srcD) tgtD).2
    · simp [processTargetFile, hcf, hm]
    · simp [processTargetFile, hcf, hm]
  refine ⟨?_, hmain, ?_, ?_, ?_⟩
  · rw [hmain]
    cases processMarkdownFile parse strf (fun _ => Except.ok ()) { a with dryRun := false } basename rr with
    | processed cs w => rfl
    | skippedPattern => rfl
    | analyzed fs => rfl
    | validated fs => rfl
    | errorLogged m => rfl
  · rw [hcopy]
  · rw [hcopy]
  · unfold updateFile
    cases rr with
    | error e => rfl
    | ok text =>
        cases hp : parse text with
        | error e => simp [hp, forgetEditWritten]
        | ok pr =>
            obtain ⟨data, content⟩ := pr
            simp only [hp]
            by_cases hm : (updFn data).2
            · simp [hm, forgetEditWritten]
            · simp [hm, forgetEditWritten]

/-! Claim C5: per-file failure isolation in the batch run. -/

/-- Claim C5, counterexample: in the Cross-Directory Copier batch the only
try/catch wraps the whole run and processTargetFiles has no per-file catch,
so a read error on one matched target terminates the run: with the failing
target first, the following target is left unprocessed (no result for it),
although the very same target is processed (modified, written) when the
failing file is absent.  A per-file error does terminate this batch run,
refuting the claim as stated. -/
theorem c5_counterexample :
    processTargetFilesRun (fun c _ _ => c) (fun _ => Except.ok ()) { }
        [Except.error "unreadable",
          Except.ok ([("title", JVal.atom (JAtom.str "A"))], [], "body")]
      = ([], some "unreadable") ∧
    processTargetFilesRun (fun c _ _ => c) (fun _ => Except.ok ()) { }
        [Except.ok ([("title", JVal.atom (JAtom.str "A"))], [], "body")]
      = ([(true, some "body")], none) := by
  refine ⟨by decide, by decide⟩

/-- Claim C5, amended: per-file failure isolation holds for the transform
pipeline and for the update path of the editor — there each file is
processed independently in enumeration order (the outcome list decomposes
around any file), and a read, parse or write failure of one file yields a
logged error outcome for that file only, with every other file processed
exactly as it would be alone.  In the Cross-Directory Copier, however, the
error of one matched target is caught only at run level: the targets
already processed keep their results, the error is logged once, and all
remaining targets are left unprocessed. -/
theorem c5_failure_isolation_amended (parse : ParseFn) (strf : Stringify) (wr : WriteFn)
    (a : ArrayArgs) (pre post : List (String × Except String String))
    (name e : String) (rr : Except String String)
    (dr : Bool) (fmt : String) (updFn : Meta → Meta × Bool)
    (epre epost : List (Except String String))
    (tpre tpost : List TargetInput) (tbad : TargetInput)
    (rs : List (Bool × Option String)) :
    processBatch parse strf wr a (pre ++ (name, rr) :: post)
      = processBatch parse strf wr a pre
        ++ processMarkdownFile parse strf wr a name rr :: processBatch parse strf wr a post ∧
    (a.filePat = none →
      processMarkdownFile parse strf wr a name (Except.error e) = FileOutcome.errorLogged e) ∧
    (a.filePat = none → ∀ text e2, parse text = Except.error e2 →
      processMarkdownFile parse strf wr a name (Except.ok text) = FileOutcome.errorLogged e2) ∧
    (a.filePat = none → ∀ text data content changes out e3,
      parse text = Except.ok (data, content) →
      processParsed strf a data content = FileOutcome.processed changes (some out) →
      wr out = Except.error e3 →
      processMarkdownFile parse strf wr a name (Except.ok text) = FileOutcome.errorLogged e3) ∧
    writtenOf (FileOutcome.errorLogged e) = none ∧
    editorBatch parse strf wr dr fmt updFn (epre ++ rr :: epost)
      = editorBatch parse strf wr dr fmt updFn epre
        ++ updateFile parse strf wr dr fmt updFn rr
          :: editorBatch parse strf wr dr fmt updFn epost ∧
    updateFile parse strf wr dr fmt updFn (Except.error e) = EditOutcome.errorLogged e ∧
    (∀ text e2, parse text = Except.error e2 →
      updateFile parse strf wr dr fmt updFn (Except.ok text) = EditOutcome.errorLogged e2) ∧
    (∀ text data content e3, parse text = Except.ok (data, content) →
      (updFn data).2 = true →
      wr (strf content (updFn data).1 fmt) = Except.error e3 →
      updateFile parse strf wr false fmt updFn (Except.ok text) = EditOutcome.errorLogged e3) ∧
    (processTargetFilesRun strf wr a tpre = (rs, none) →
      copyTargetStep strf wr a tbad = Except.error e →
      processTargetFilesRun strf wr a (tpre ++ tbad :: tpost) = (rs, some e)) := by
  refine ⟨by simp [processBatch], ?_, ?_, ?_, rfl, by simp [editorBatch], rfl, ?_, ?_, ?_⟩
  · intro hpat
    simp [processMarkdownFile, hpat, processFileBody]
  · intro hpat text e2 hp
    simp [processMarkdownFile, hpat, processFileBody, hp]
  · intro hpat text data content changes out e3 hp hP hw
    simp [processMarkdownFile, hpat, processFileBody, hp, hP, hw]
  · intro text e2 hp
    simp [updateFile, hp]
  · intro text data content e3 hp hm hw
    simp [updateFile, hp, hm, hw]
  · intro hpre hbad
    revert hpre
    induction tpre generalizing rs with
    | nil =>
        intro hpre
        unfold processTargetFilesRun at hpre
        injection hpre with hp1 hp2
        subst hp1
        simp only [List.nil_append]
        unfold processTargetFilesRun
        simp only [hbad]
    | cons t ts ih =>
        intro hpre
        unfold processTargetFilesRun at hpre
        cases hstep : copyTargetStep strf wr a t with
        | error e' =>
            simp only [hstep] at hpre
            injection hpre with hp1 hp2
            exact absurd hp2.symm (by simp)
        | ok r =>
            simp only [hstep] at hpre
            injection hpre with hp1 hp2
            have hts : processTargetFilesRun strf wr a ts
                = ((processTargetFilesRun strf wr a ts).1, none) :=
              Prod.ext_iff.mpr ⟨rfl, hp2⟩
            have habort := ih (processTargetFilesRun strf wr a ts).1 hts
            simp only [List.cons_append]
            unfold processTargetFilesRun
            simp only [hstep]
            rw [habort, ← hp1]

/-- Witness for C5: concrete batches showing isolation in the pipeline and
in the editor path, and the copier run aborting at a failing target while
the preceding target keeps its result and the following one is skipped. -/
theorem c5_failure_isolation_amended_witness :
    processBatch (fun _ => Except.error "bad fence") (fun _ _ _ => "OUT") (fun _ => Except.ok ())
        { addField := some "x", addValue := "v" }
        [("a.md", Except.error "unreadable"), ("b.md", Except.ok "text")]
      = [FileOutcome.errorLogged "unreadable", FileOutcome.errorLogged "bad fence"] ∧
    processMarkdownFile (fun _ => Except.ok ([], "body")) (fun _ _ _ => "OUT")
        (fun _ => Except.error "disk full") { addField := some "x", addValue := "v" }
        "c.md" (Except.ok "text")
      = FileOutcome.errorLogged "disk full" ∧
    editorBatch (fun _ => Except.error "bad fence") (fun _ _ _ => "OUT") (fun _ => Except.ok ())
        false "yaml" (fun d => (d, true))
        [Except.error "unreadable", Except.ok "text"]
      = [EditOutcome.errorLogged "unreadable", EditOutcome.errorLogged "bad fence"] ∧
    processTargetFilesRun (fun c _ _ => c) (fun _ => Except.ok ()) { }
        ([Except.ok ([("title", JVal.atom (JAtom.str "A"))], [], "b1")]
          ++ Except.error "boom"
            :: [Except.ok ([("title", JVal.atom (JAtom.str "A"))], [], "b2")])
      = ([(true, some "b1")], some "boom") := by
  refine ⟨?_, ?_, ?_, ?_⟩
  · have h1 := (c5_failure_isolation_amended (fun _ => Except.error "bad fence")
      (fun _ _ _ => "OUT") (fun _ => Except.ok ())
      { addField := some "x", addValue := "v" } [] [("b.md", Except.ok "text")]
      "a.md" "unreadable" (Except.error "unreadable")
      false "yaml" (fun d => (d, true)) [] [] [] [] (Except.error "x") []).1
    have h2 := (c5_failure_isolation_amended (fun _ => Except.error "bad fence")
      (fun _ _ _ => "OUT") (fun _ => Except.ok ())
      { addField := some "x", addValue := "v" } [] [] "a.md" "unreadable"
      (Except.error "unreadable")
      false "yaml" (fun d => (d, true)) [] [] [] [] (Except.error "x") []).2.1 rfl
    have h3 := (c5_failure_isolation_amended (fun _ => Except.error "bad fence")
      (fun _ _ _ => "OUT") (fun _ => Except.ok ())
      { addField := some "x", addValue := "v" } [] [] "b.md" "unreadable"
      (Except.error "unreadable")
      false "yaml" (fun d => (d, true)) [] [] [] [] (Except.error "x") []).2.2.1
      rfl "text" "bad fence" rfl
    simp only [List.nil_append] at h1
    rw [h1, h2]
    simp [processBatch, h3]
  · exact (c5_failure_isolation_amended (fun _ => Except.ok ([], "body"))
      (fun _ _ _ => "OUT") (fun _ => Except.error "disk full")
      { addField := some "x", addValue := "v" } [] [] "c.md" "e"
      (Except.ok "text")
      false "yaml" (fun d => (d, true)) [] [] [] [] (Except.error "x") []).2.2.2.1
      rfl "text" [] "body" [Change.addField "x" "v"] "OUT" "disk full" rfl (by decide) rfl
  · have h4 := (c5_failure_isolation_amended (fun _ => Except.error "bad fence")
      (fun _ _ _ => "OUT") (fun _ => Except.ok ())
      { addField := some "x", addValue := "v" } [] [] "a.md" "unreadable"
      (Except.error "unreadable")
      false "yaml" (fun d => (d, true)) [] [Except.ok "text"] [] [] (Except.error "x") []).2.2.2.2.2.1
    have h5 := (c5_failure_isolation_amended (fun _ => Except.error "bad fence")
      (fun _ _ _ => "OUT") (fun _ => Except.ok ())
      { addField := some "x", addValue := "v" } [] [] "a.md" "unreadable"
      (Except.error "unreadable")
      false "yaml" (fun d => (d, true)) [] [] [] [] (Except.error "x") []).2.2.2.2.2.2.2.1
      "text" "bad fence" rfl
    have h6 := (c5_failure_isolation_amended (fun _ => Except.error "bad fence")
      (fun _ _ _ => "OUT") (fun _ => Except.ok ())
      { addField := some "x", addValue := "v" } [] [] "a.md" "unreadable"
      (Except.error "unreadable")
      false "yaml" (fun d => (d, true)) [] [] [] [] (Except.error "x") []).2.2.2.2.2.2.1
    simp only [List.nil_append] at h4
    rw [h4]
    simp [editorBatch, h5, h6]
  · exact (c5_failure_isolation_amended (fun _ => Except.ok ([], "")) (fun c _ _ => c)
      (fun _ => Except.ok ()) { } [] [] "n" "boom" (Except.ok "t")
      false "yaml" (fun d => (d, true)) [] []
      [Except.ok ([("title", JVal.atom (JAtom.str "A"))], [], "b1")]
      [Except.ok ([("title", JVal.atom (JAtom.str "A"))], [], "b2")]
      (Except.error "boom") [(true, some "b1")]).2.2.2.2.2.2.2.2.2
      (by decide) rfl

/-! Claim C8: fixed operation order within one file. -/

theorem foldl_step_shape {P : Change → Prop} (step : Meta → String → Meta × List Change)
    (hstep : ∀ d f, ∀ c ∈ (step d f).2, P c) :
    ∀ (fs : List String) (init : Meta × List Change), (∀ c ∈ init.2, P c) →
      ∀ c ∈ (fs.foldl (fun acc f => ((step acc.1 f).1, acc.2 ++ (step acc.1 f).2)) init).2, P c := by
  intro fs
  induction fs with
  | nil => intro init hinit c hc; exact hinit c hc
  | cons f rest ih =>
      intro init hinit c hc
      refine ih _ ?_ c hc
      intro c' hc'
      rcases List.mem_append.mp hc' with h | h
      · exact hinit c' h
      · exact hstep init.1 f c' h

theorem toArrayField_shape (a : ArrayArgs) (d : Meta) (f : String) :
    ∀ c ∈ (toArrayField a d f).2,
      (∃ g vs, c = Change.convertToArray g vs) ∨ (∃ g vs, c = Change.processArray g vs) := by
  intro c hc
  unfold toArrayField at hc
  repeat' split at hc
  all_goals simp at hc
  all_goals try (split at hc <;> simp at hc)
  all_goals first
    | exact Or.inl ⟨_, _, hc⟩
    | exact Or.inr ⟨_, _, hc⟩

theorem toArrayMode_shape (a : ArrayArgs) (d : Meta) :
    ∀ c ∈ (toArrayMode a d).2,
      (∃ g vs, c = Change.convertToArray g vs) ∨ (∃ g vs, c = Change.processArray g vs) := by
  exact foldl_step_shape (fun dd f => toArrayField a dd f)
    (fun dd f => toArrayField_shape a dd f) a.fields (d, []) (by simp)

theorem toStringField_shape (a : ArrayArgs) (d : Meta) (f : String) :
    ∀ c ∈ (toStringField a d f).2, ∃ g v, c = Change.convertToString g v := by
  intro c hc
  unfold toStringField at hc
  repeat' split at hc
  all_goals simp at hc
  all_goals exact ⟨_, _, hc⟩

theorem toStringMode_shape (a : ArrayArgs) (d : Meta) :
    ∀ c ∈ (toStringMode a d).2, ∃ g v, c = Change.convertToString g v := by
  exact foldl_step_shape (fun dd f => toStringField a dd f)
    (fun dd f => toStringField_shape a dd f) a.fields (d, []) (by simp)

theorem modeStep_shape (a : ArrayArgs) (d : Meta) :
    ∀ c ∈ (modeStep a d).2,
      (∃ g vs, c = Change.convertToArray g vs) ∨ (∃ g vs, c = Change.processArray g vs) ∨
        (∃ g v, c = Change.convertToString g v) := by
  intro c hc
  unfold modeStep at hc
  split at hc
  · rcases toArrayMode_shape a d c hc with h | h
    · exact Or.inl h
    · exact Or.inr (Or.inl h)
  · split at hc
    · exact Or.inr (Or.inr (toStringMode_shape a d c hc))
    · simp at hc

theorem addFieldStep_shape (a : ArrayArgs) (d : Meta) :
    ∀ c ∈ (addFieldStep a d).2, ∃ f v, c = Change.addField f v := by
  intro c hc
  unfold addFieldStep at hc
  repeat' split at hc
  all_goals simp at hc
  all_goals exact ⟨_, _, hc⟩

theorem removeFieldStep_shape (a : ArrayArgs) (d : Meta) :
    ∀ c ∈ (removeFieldStep a d).2, ∃ f, c = Change.removeField f := by
  intro c hc
  unfold removeFieldStep at hc
  repeat' split at hc
  all_goals simp at hc
  all_goals exact ⟨_, hc⟩

theorem renameFieldStep_shape (a : ArrayArgs) (d : Meta) :
    ∀ c ∈ (renameFieldStep a d).2, ∃ o n, c = Change.renameField o n := by
  intro c hc
  unfold renameFieldStep at hc
  repeat' split at hc
  all_goals simp at hc
  all_goals exact ⟨_, _, hc⟩

/-- Claim C8: within one file, in any mode other than analyze and validate,
the change log of the outcome is exactly the concatenation of the change
records of the mode conversion over all requested fields, then the add-field
step, then the remove-field step, then the rename-field step, applied in
this order to the successively transformed metadata; and each block of the
log holds only change records of the corresponding kind. -/
theorem c8_operation_order (strf : Stringify) (a : ArrayArgs) (d : Meta) (content : String)
    (h1 : a.mode ≠ "analyze") (h2 : a.mode ≠ "validate") :
    changesOf (processParsed strf a d content)
      = (modeStep a d).2
        ++ (addFieldStep a (modeStep a d).1).2
        ++ (removeFieldStep a (addFieldStep a (modeStep a d).1).1).2
        ++ (renameFieldStep a (removeFieldStep a (addFieldStep a (modeStep a d).1).1).1).2 ∧
    (∀ c ∈ (modeStep a d).2,
      (∃ g vs, c = Change.convertToArray g vs) ∨ (∃ g vs, c = Change.processArray g vs) ∨
        (∃ g v, c = Change.convertToString g v)) ∧
    (∀ c ∈ (addFieldStep a (modeStep a d).1).2, ∃ f v, c = Change.addField f v) ∧
    (∀ c ∈ (removeFieldStep a (addFieldStep a (modeStep a d).1).1).2,
      ∃ f, c = Change.removeField f) ∧
    (∀ c ∈ (renameFieldStep a (removeFieldStep a (addFieldStep a (modeStep a d).1).1).1).2,
      ∃ o n, c = Change.renameField o n) := by
  refine ⟨?_, modeStep_shape a d, addFieldStep_shape a _, removeFieldStep_shape a _,
    renameFieldStep_shape a _⟩
  have hb1 : (a.mode == "analyze") = false := by simpa [beq_iff_eq] using h1
  have hb2 : (a.mode == "validate") = false := by simpa [beq_iff_eq] using h2
  simp only [processParsed, hb1, hb2, Bool.false_eq_true, if_false]
  split
  · next heq =>
      simp only [changesOf]
      exact (by simpa [beq_iff_eq] using heq : _ = ([] : List Change)).symm
  · rfl

/-- Witness for C8: a concrete file exercising all four steps in order. -/
theorem c8_operation_order_witness :
    changesOf (processParsed (fun _ _ _ => "OUT")
        { mode := "to-array", fields := ["tags"], addField := some "status", addValue := "draft",
          removeField := some "old", renameField := some "from", newFieldName := some "to" }
        [("tags", JVal.atom (JAtom.str "b,a")), ("old", JVal.atom (JAtom.str "x")),
          ("from", JVal.atom (JAtom.str "y"))] "body")
      = [Change.convertToArray "tags" [JAtom.str "b", JAtom.str "a"],
          Change.addField "status" "draft", Change.removeField "old",
          Change.renameField "from" "to"] := by
  refine (c8_operation_order (fun _ _ _ => "OUT") _ _ "body" (by decide) (by decide)).1.trans ?_
  decide

/-! Claim C7: delimiter round trip.  Supporting lemmas about split/join. -/

theorem intercalateList_cons (d x : List Char) (xs : List (List Char)) (h : xs ≠ []) :
    intercalateList d (x :: xs) = x ++ d ++ intercalateList d xs := by
  cases xs with
  | nil => exact absurd rfl h
  | cons y ys => rfl

theorem breakOnL_eq (d : List Char) (hd : d ≠ []) :
    ∀ s p r : List Char, breakOnL d s = some (p, r) → s = p ++ d ++ r := by
  intro s
  induction s with
  | nil =>
      intro p r h
      simp [breakOnL, beq_iff_eq, hd] at h
  | cons c cs ih =>
      intro p r h
      by_cases hp : d.isPrefixOf (c :: cs)
      · simp only [breakOnL, hp, if_true] at h
        obtain ⟨t, ht⟩ := List.isPrefixOf_iff_prefix.mp hp
        injection h with h2
        injection h2 with h3 h4
        subst h3
        subst h4
        rw [← ht, List.drop_left]
        simp
      · simp only [breakOnL, hp, Bool.false_eq_true, if_false] at h
        cases hb : breakOnL d cs with
        | none => rw [hb] at h; simp at h
        | some pr =>
            obtain ⟨p', r'⟩ := pr
            rw [hb] at h
            simp only [Option.map_some'] at h
            injection h with h2
            injection h2 with h3 h4
            subst h3
            subst h4
            have := ih p' r' hb
            simp [this]

theorem breakOnL_some_length (d : List Char) (hd : d ≠ []) (s p r : List Char)
    (h : breakOnL d s = some (p, r)) : r.length < s.length := by
  have hs := breakOnL_eq d hd s p r h
  have hdl : 0 < d.length := List.length_pos.mpr hd
  rw [hs]
  simp only [List.length_append]
  omega

theorem splitFuel_ne_nil (d : List Char) (fuel : Nat) (s : List Char) :
    splitFuel d fuel s ≠ [] := by
  cases fuel with
  | zero => simp [splitFuel]
  | succ n =>
      unfold splitFuel
      split <;> simp

theorem intercalate_splitFuel (d : List Char) (hd : d ≠ []) :
    ∀ (fuel : Nat) (s : List Char), s.length < fuel →
      intercalateList d (splitFuel d fuel s) = s := by
  intro fuel
  induction fuel with
  | zero => intro s h; omega
  | succ n ih =>
      intro s hs
      unfold splitFuel
      cases hb : breakOnL d s with
      | none => rfl
      | some pr =>
          obtain ⟨p, r⟩ := pr
          have hsplit := breakOnL_eq d hd s p r hb
          have hlen := breakOnL_some_length d hd s p r hb
          rw [intercalateList_cons d p _ (splitFuel_ne_nil d n r), ih r (by omega)]
          exact hsplit.symm

theorem intercalate_splitList (d s : List Char) (hd : d ≠ []) :
    intercalateList d (splitList d s) = s := by
  unfold splitList
  have : (d == []) = false := by simpa [beq_iff_eq] using hd
  rw [this]
  simp only [Bool.false_eq_true, if_false]
  exact intercalate_splitFuel d hd (s.length + 1) s (by omega)

theorem string_data_ne_nil_of_ne_empty (p : List Char) (h : p ≠ []) : String.mk p ≠ "" := by
  intro hc
  exact h (congrArg String.data hc)

/-- Claim C7, counterexample: the field value given by the string made of
the letter a, a comma, a space and the letter b satisfies the stated
conditions (its split pieces are nonempty and its entries contain no
occurrence of the delimiter), yet to-array followed by to-string with the
same delimiter yields the string without the space, because to-array trims
each piece.  The original string is not reproduced. -/
theorem c7_counterexample :
    jsSplit "a, b" "," = ["a", " b"] ∧
    (∀ p ∈ jsSplit "a, b" ",", p ≠ "") ∧
    occursIn "," "a" = false ∧ occursIn "," " b" = false ∧
    getF ((toStringMode { fields := ["tags"], mode := "to-string" }
        ((toArrayMode { fields := ["tags"], mode := "to-array" }
          [("tags", JVal.atom (JAtom.str "a, b"))]).1)).1) "tags"
      = some (JVal.atom (JAtom.str "a,b")) ∧
    ("a,b" : String) ≠ "a, b" := by
  refine ⟨by decide, by decide, by decide, by decide, by decide, by decide⟩

/-- Claim C7, amended: for every string field whose split pieces by the
delimiter are all nonempty and carry no leading or trailing whitespace (so
that trimming each piece is the identity), applying to-array (with
sortArrays and uniqueValues both unset) followed by to-string with the same
nonempty delimiter reproduces the original string value of the field. -/
theorem c7_round_trip_amended (d : Meta) (f s delim : String)
    (hget : getF d f = some (JVal.atom (JAtom.str s)))
    (hs : s ≠ "")
    (hd : delim ≠ "")
    (hpieces : ∀ p ∈ splitList delim.data s.data, p ≠ [] ∧ trimCharList p = p) :
    getF ((toStringMode { fields := [f], delimiter := delim, mode := "to-string" }
        ((toArrayMode { fields := [f], delimiter := delim, mode := "to-array" } d).1)).1) f
      = some (JVal.atom (JAtom.str s)) := by
  have hdd : delim.data ≠ [] := by
    intro hc
    exact hd (congrArg String.mk hc)
  have hsb : (s == "") = false := by simpa [beq_iff_eq] using hs
  set pieces := splitList delim.data s.data with hpdef
  have hmapTrim : (pieces.map String.mk).map jsTrim = pieces.map String.mk := by
    rw [List.map_map]
    apply List.map_congr_left
    intro p hp
    have := (hpieces p hp).2
    simp [jsTrim, Function.comp, this]
  have hfilter : (pieces.map String.mk).filter (fun v => !(v == "")) = pieces.map String.mk := by
    apply List.filter_eq_self.mpr
    intro v hv
    obtain ⟨p, hp, rfl⟩ := List.mem_map.mp hv
    have hne := string_data_ne_nil_of_ne_empty p (hpieces p hp).1
    simpa [beq_iff_eq] using hne
  have harr : toArrayField { fields := [f], delimiter := delim, mode := "to-array" } d f
      = (setF d f (JVal.arr ((pieces.map String.mk).map JAtom.str)),
          [Change.convertToArray f ((pieces.map String.mk).map JAtom.str)]) := by
    simp only [toArrayField, hget, hsb, Bool.false_eq_true, if_false, jsSplit, ← hpdef,
      hmapTrim, hfilter]
  have hjoin : jsJoinAtoms delim ((pieces.map String.mk).map JAtom.str) = s := by
    unfold jsJoinAtoms
    have h1 : ((pieces.map String.mk).map JAtom.str).map joinElemStr = pieces.map String.mk := by
      rw [List.map_map, List.map_map]
      apply List.map_congr_left
      intro p hp
      rfl
    rw [h1, List.map_map]
    have h2 : pieces.map (String.data ∘ String.mk) = pieces := by
      have h2a : pieces.map (String.data ∘ String.mk) = pieces.map id := by
        apply List.map_congr_left
        intro p hp
        rfl
      rw [h2a, List.map_id]
    rw [h2, hpdef, intercalate_splitList delim.data s.data hdd]
  have hmode : toArrayMode { fields := [f], delimiter := delim, mode := "to-array" } d
      = (setF d f (JVal.arr ((pieces.map String.mk).map JAtom.str)),
          [Change.convertToArray f ((pieces.map String.mk).map JAtom.str)]) := by
    simp [toArrayMode, harr]
  rw [hmode]
  have hget2 : getF (setF d f (JVal.arr ((pieces.map String.mk).map JAtom.str))) f
      = some (JVal.arr ((pieces.map String.mk).map JAtom.str)) := getF_setF_self _ _ _
  simp only [toStringMode, List.foldl_cons, List.foldl_nil, toStringField, hget2, hjoin]
  simp [getF_setF_self]

/-- Witness for C7: a concrete delimiter round trip. -/
theorem c7_round_trip_amended_witness :
    getF ((toStringMode { fields := ["tags"], mode := "to-string" }
        ((toArrayMode { fields := ["tags"], mode := "to-array" }
          [("tags", JVal.atom (JAtom.str "go,rust"))]).1)).1) "tags"
      = some (JVal.atom (JAtom.str "go,rust")) := by
  exact c7_round_trip_amended [("tags", JVal.atom (JAtom.str "go,rust"))] "tags" "go,rust" ","
    (by decide) (by decide) (by decide) (by decide)

end FM
